import Mathlib

/-!
Verification of the funding-rate arbitrage core of tdl321/quants-lab.

The development shallowly embeds the two in-scope source files:

* `core/backtesting/funding_rate_data_provider.py`
  (`FundingRateBacktestDataProvider`): the loaded parquet data is a list of
  samples sorted by timestamp; `get_funding_rate`, `get_best_spread` and the
  per-pair core of `interpolate_missing_data` are translated directly.

* `controllers/funding_rate_arb.py` (`FundingRateArbController`): the scan
  (`update_processed_data`), the per-token rate collection
  (`_get_funding_info_by_token`), validation (`_validate_funding_rates`),
  the pairwise spread search (`_find_best_arbitrage`), position opening
  (`create_actions_proposal` / `_create_paired_executors`) and the exit path
  (`stop_actions_proposal` / `_should_exit_position` /
  `_get_active_executors`) are translated directly, with Python `Decimal` /
  `float` arithmetic idealized as exact rational arithmetic (`ℚ`).

Hummingbot's `BacktestingDataProvider.get_funding_info`, which the mock
connectors delegate to, is not part of the repository sources; it is
modelled from the spec (see `BTProvider.get_funding_info` below).
-/

namespace QuantsLab

/-- One row of the loaded funding-rate dataframe
(`FundingRateBacktestDataProvider.data`): columns `timestamp`, `exchange`,
`base` and `funding_rate`. -/
structure FundingSample where
  timestamp : Int
  exchange : String
  base : String
  funding_rate : ℚ
deriving DecidableEq, Repr

/-- The row-filter used by `FundingRateBacktestDataProvider.get_funding_rate`:
`(exchange == exchange) & (base == token) & (timestamp <= timestamp)`. -/
def sampleMatches (exchange token : String) (timestamp : Int) (s : FundingSample) : Bool :=
  s.exchange == exchange && s.base == token && decide (s.timestamp ≤ timestamp)

/-- `FundingRateBacktestDataProvider.get_funding_rate`: filter the loaded
dataframe (sorted by timestamp) down to the given exchange/token with
`timestamp <= t`, and return the funding rate of the last surviving row
(`matching_data.iloc[-1]`), or `None` when the filter is empty. -/
def get_funding_rate (data : List FundingSample) (timestamp : Int)
    (exchange token : String) : Option ℚ :=
  ((data.filter (sampleMatches exchange token timestamp)).getLast?).map (·.funding_rate)

/-- Loaded-data well-formedness established by `load_data`
(`sort_values('timestamp')`): rows are ordered by non-decreasing timestamp. -/
abbrev SortedByTimestamp (data : List FundingSample) : Prop :=
  data.Sorted (fun a b => a.timestamp ≤ b.timestamp)

/-- The last element of a non-empty list is a member of the list. -/
theorem getLast?_mem_self {α : Type} (l : List α) (y : α)
    (h : l.getLast? = some y) : y ∈ l := by
  rcases List.mem_getLast?_eq_getLast (l := l) (x := y) h with ⟨hne, heq⟩
  exact heq ▸ List.getLast_mem hne

/-- In a timestamp-sorted list, every element's timestamp is bounded by the
timestamp of the last element. -/
theorem timestamp_le_getLast (l : List FundingSample)
    (hs : l.Sorted (fun a b => a.timestamp ≤ b.timestamp)) :
    ∀ x ∈ l, ∀ y, l.getLast? = some y → x.timestamp ≤ y.timestamp := by
  induction l with
  | nil => intro x hx; cases hx
  | cons a rest ih =>
    intro x hx y hy
    rcases List.sorted_cons.mp hs with ⟨ha, hrest⟩
    cases rest with
    | nil =>
      simp only [List.getLast?_singleton, Option.some.injEq] at hy
      rcases List.mem_singleton.mp hx with rfl
      exact hy ▸ le_refl _
    | cons b rest2 =>
      have hy2 : (b :: rest2).getLast? = some y := by
        rw [List.getLast?_cons_cons] at hy
        exact hy
      rcases List.mem_cons.mp hx with rfl | hx2
      · have hym : y ∈ b :: rest2 := by
          have := List.getLast?_eq_getLast (b :: rest2) (by simp)
          rw [this] at hy2
          exact (Option.some.injEq _ _).mp hy2 ▸ List.getLast_mem _
        exact ha y hym
      · exact ih hrest x hx2 y hy2

/-- C2: for every venue, instrument and query time, `get_funding_rate` on a
timestamp-sorted dataset returns the rate of a loaded sample for that venue
and instrument whose timestamp is `≤` the query time and is maximal among
all such samples; it returns `none` exactly when no sample for that venue
and instrument has timestamp `≤` the query time.  In particular it never
returns a sample with timestamp greater than the query time. -/
theorem get_funding_rate_as_of (data : List FundingSample) (t : Int)
    (exchange token : String) (hs : SortedByTimestamp data) :
    (∀ r, get_funding_rate data t exchange token = some r →
      ∃ s, s ∈ data ∧ s.exchange = exchange ∧ s.base = token ∧
        s.timestamp ≤ t ∧ s.funding_rate = r ∧
        ∀ s2, s2 ∈ data → s2.exchange = exchange → s2.base = token →
          s2.timestamp ≤ t → s2.timestamp ≤ s.timestamp)
    ∧ (get_funding_rate data t exchange token = none ↔
        ∀ s, s ∈ data → s.exchange = exchange → s.base = token →
          ¬ s.timestamp ≤ t) := by
  have hmem : ∀ s : FundingSample,
      s ∈ data.filter (sampleMatches exchange token t) ↔
      (s ∈ data ∧ s.exchange = exchange ∧ s.base = token ∧ s.timestamp ≤ t) := by
    intro s
    simp [List.mem_filter, sampleMatches, and_assoc]
  have hsortedFilter :
      (data.filter (sampleMatches exchange token t)).Sorted
        (fun a b => a.timestamp ≤ b.timestamp) :=
    hs.sublist (List.filter_sublist data)
  constructor
  · intro r hr
    rcases Option.map_eq_some'.mp hr with ⟨s, hlast, hrate⟩
    have hsmem : s ∈ data.filter (sampleMatches exchange token t) :=
      getLast?_mem_self _ s hlast
    rcases (hmem s).mp hsmem with ⟨hd, hex, hb, hts⟩
    refine ⟨s, hd, hex, hb, hts, hrate, ?_⟩
    intro s2 h2d h2e h2b h2t
    have h2mem : s2 ∈ data.filter (sampleMatches exchange token t) :=
      (hmem s2).mpr ⟨h2d, h2e, h2b, h2t⟩
    exact timestamp_le_getLast _ hsortedFilter s2 h2mem s hlast
  · constructor
    · intro hn s hsd hse hsb hst
      have hempty : data.filter (sampleMatches exchange token t) = [] := by
        have := Option.map_eq_none'.mp hn
        exact List.getLast?_eq_none_iff.mp this
      have : s ∈ data.filter (sampleMatches exchange token t) :=
        (hmem s).mpr ⟨hsd, hse, hsb, hst⟩
      rw [hempty] at this
      cases this
    · intro hall
      have hempty : data.filter (sampleMatches exchange token t) = [] := by
        rw [List.filter_eq_nil_iff]
        intro s hsd
        intro hmatch
        have := (hmem s).mp (List.mem_filter.mpr ⟨hsd, hmatch⟩)
        exact hall s this.1 this.2.1 this.2.2.1 this.2.2.2
      unfold get_funding_rate
      rw [hempty]
      rfl

/-- Witness for C2: a concrete two-sample dataset queried between the two
timestamps; the theorem produces the earlier sample as the as-of answer. -/
theorem get_funding_rate_as_of_witness :
    ∃ s, s ∈ [⟨1000, "extended", "KAITO", 1/2⟩,
              (⟨1100, "extended", "KAITO", 3/4⟩ : FundingSample)] ∧
      s.exchange = "extended" ∧ s.base = "KAITO" ∧ s.timestamp ≤ 1050 ∧
      s.funding_rate = 1/2 ∧
      ∀ s2, s2 ∈ [⟨1000, "extended", "KAITO", 1/2⟩,
                  (⟨1100, "extended", "KAITO", 3/4⟩ : FundingSample)] →
        s2.exchange = "extended" → s2.base = "KAITO" →
        s2.timestamp ≤ 1050 → s2.timestamp ≤ s.timestamp :=
  (get_funding_rate_as_of
      [⟨1000, "extended", "KAITO", 1/2⟩, ⟨1100, "extended", "KAITO", 3/4⟩]
      1050 "extended" "KAITO" (by decide)).1 (1/2) rfl

/-- Python's `abs` on `Decimal`, as an executable function on `ℚ`. -/
def absQ (x : ℚ) : ℚ := if x < 0 then -x else x

theorem absQ_eq_abs (x : ℚ) : absQ x = |x| := by
  unfold absQ
  split
  · exact (abs_of_neg (by assumption)).symm
  · exact (abs_of_nonneg (not_lt.mp (by assumption))).symm

/-- All unordered index pairs of a list, in the iteration order of the
Python nested loop `for i, x in enumerate(l): for y in l[i+1:]`. -/
def pairsOf {α : Type} : List α → List (α × α)
  | [] => []
  | x :: xs => xs.map (fun y => (x, y)) ++ pairsOf xs

/-- The state of a loaded `FundingRateBacktestDataProvider`: the sorted
dataframe `data` together with the `exchanges` metadata list extracted by
`load_data` (`sorted(data['exchange'].unique())`). -/
structure FRProvider where
  data : List FundingSample
  exchanges : List String
deriving Repr

/-- The per-exchange rate collection inside
`FundingRateBacktestDataProvider.get_best_spread`: query every exchange and
keep only those with an available rate. -/
def ratesForToken (p : FRProvider) (timestamp : Int) (token : String) :
    List (String × ℚ) :=
  p.exchanges.filterMap (fun ex =>
    (get_funding_rate p.data timestamp ex token).map (fun r => (ex, r)))

/-- `FundingRateBacktestDataProvider.get_best_spread`: collect rates from
all exchanges, return `None` with fewer than two, otherwise scan all
unordered exchange pairs keeping the pair with the largest raw
`abs(rates[ex1] - rates[ex2])` (strictly improving, starting from 0, so an
all-zero-spread set also yields `None`).  Note: no funding-interval
normalization is applied here. -/
def best_pair_scan (rates : List (String × ℚ)) : Option (String × String × ℚ) :=
  (pairsOf rates).foldl
    (fun acc pr =>
      let spread := absQ (pr.1.2 - pr.2.2)
      let cur : ℚ := match acc with | none => 0 | some b => b.2.2
      if cur < spread then some (pr.1.1, pr.2.1, spread) else acc)
    none

def get_best_spread (p : FRProvider) (timestamp : Int) (token : String) :
    Option (String × String × ℚ) :=
  let rates := ratesForToken p timestamp token
  if rates.length < 2 then none
  else best_pair_scan rates

/-- Evaluation of the pair scan on a two-venue rates dict. -/
theorem best_pair_scan_two (a b : String) (x y : ℚ) :
    best_pair_scan [(a, x), (b, y)] =
      if 0 < |x - y| then some (a, b, |x - y|) else none := by
  simp [best_pair_scan, pairsOf, absQ_eq_abs]

/-- `FundingRateArbController.FUNDING_INTERVALS`, the class-level dict
`{'extended_perpetual': 28800, 'lighter_perpetual': 3600}`.  In the source a
lookup of any other venue raises `KeyError`; the controller embedding below
takes the interval mapping as a function parameter (used only at configured
venues) and this concrete mapping instantiates it in witnesses. -/
def FUNDING_INTERVALS (connector : String) : ℚ :=
  if connector = "extended_perpetual" then 28800
  else if connector = "lighter_perpetual" then 3600
  else 0

/-- `FundingRateArbController._normalize_rate`: divide a per-interval rate
by the interval length in seconds, giving a per-second rate. -/
def normalize_rate (rate : ℚ) (interval_seconds : ℚ) : ℚ :=
  rate / interval_seconds

/-- `FundingRateArbController._find_best_arbitrage`: iterate over all
unordered connector pairs of the collected rates dict (in insertion order),
normalize both rates to per-second with the venue's funding interval,
score the pair by `abs(rate1 - rate2) * 3600` (hourly spread) and keep the
strictly best pair; `side` is `BUY` (here `true`) when the first venue's
normalized rate is lower.  `None` models the Python
`(None, None, None, Decimal('0'))` no-pair result.  The interval map `F`
stands for a *successful* lookup in the hard-coded class dict
`FUNDING_INTERVALS`: in the source, a rate for a venue outside that dict
raises `KeyError` instead of scoring the pair, so `F` is meaningful only
at `extended_perpetual` and `lighter_perpetual`, and every concrete
instantiation in this file feeds rate dicts whose keys lie in the dict. -/
def find_best_arbitrage (F : String → ℚ) (rates : List (String × ℚ)) :
    Option (String × String × Bool × ℚ) :=
  (pairsOf rates).foldl
    (fun acc pr =>
      let rate1 := normalize_rate pr.1.2 (F pr.1.1)
      let rate2 := normalize_rate pr.2.2 (F pr.2.1)
      let spread_hourly := absQ (rate1 - rate2) * 3600
      let best_spread : ℚ := match acc with | none => 0 | some b => b.2.2.2
      if best_spread < spread_hourly then
        some (pr.1.1, pr.2.1, decide (rate1 < rate2), spread_hourly)
      else acc)
    none

/-- The spread component of a `_find_best_arbitrage` result, as unpacked by
the caller (`conn1, conn2, side, spread = best`): `0` for the no-pair
result. -/
def bestSpreadValue (r : Option (String × String × Bool × ℚ)) : ℚ :=
  match r with
  | none => 0
  | some b => b.2.2.2

/-- Counterexample for C3: the provider-level
`FundingRateBacktestDataProvider.get_best_spread` does not normalize by the
venues' funding intervals.  With extended at rate 0.008 per 8h interval
(28800 s) and lighter at 0.002 per 1h interval (3600 s), it returns the raw
spread 0.006, while the claimed formula
`|rate_a/interval_a - rate_b/interval_b| * 3600` gives 0.001. -/
theorem get_best_spread_not_normalized :
    get_best_spread
      { data := [⟨100, "extended", "KAITO", 8/1000⟩,
                 ⟨100, "lighter", "KAITO", 2/1000⟩],
        exchanges := ["extended", "lighter"] }
      100 "KAITO" = some ("extended", "lighter", 6/1000)
    ∧ ¬ ((6 : ℚ)/1000 = |(8:ℚ)/1000 / 28800 - (2:ℚ)/1000 / 3600| * 3600) := by
  constructor
  · have hrates : ratesForToken
        { data := [⟨100, "extended", "KAITO", 8/1000⟩,
                   ⟨100, "lighter", "KAITO", 2/1000⟩],
          exchanges := ["extended", "lighter"] } 100 "KAITO" =
        [("extended", 8/1000), ("lighter", 2/1000)] := rfl
    simp only [get_best_spread, hrates, best_pair_scan_two, List.length_cons,
      List.length_nil]
    norm_num
  · intro h
    rw [abs_of_nonpos (by norm_num)] at h
    norm_num at h

/-- Evaluation of `_find_best_arbitrage` on a two-venue rates dict. -/
theorem find_best_arbitrage_two (F : String → ℚ) (a b : String) (x y : ℚ) :
    find_best_arbitrage F [(a, x), (b, y)] =
      if 0 < |x / F a - y / F b| * 3600 then
        some (a, b, decide (x / F a < y / F b), |x / F a - y / F b| * 3600)
      else none := by
  simp [find_best_arbitrage, pairsOf, normalize_rate, absQ_eq_abs]

/-- The spread of a two-venue `_find_best_arbitrage` search. -/
theorem bestSpreadValue_two (F : String → ℚ) (a b : String) (x y : ℚ) :
    bestSpreadValue (find_best_arbitrage F [(a, x), (b, y)]) =
      |x / F a - y / F b| * 3600 := by
  rw [find_best_arbitrage_two]
  by_cases h : (0 : ℚ) < |x / F a - y / F b| * 3600
  · rw [if_pos h]; rfl
  · rw [if_neg h]
    have hnn : (0 : ℚ) ≤ |x / F a - y / F b| * 3600 := by positivity
    have hz : |x / F a - y / F b| * 3600 = 0 := le_antisymm (not_lt.mp h) hnn
    simp [bestSpreadValue, hz]

/-- C3 (amended): in the controller's `_find_best_arbitrage`, for an
instrument with exactly two venues carrying rates, the resulting spread is
exactly `|rate_a/interval_a - rate_b/interval_b| * 3600`, and the value is
unchanged when the two venues are presented in the opposite order. -/
theorem find_best_arbitrage_two_venues (F : String → ℚ)
    (c1 c2 : String) (r1 r2 : ℚ) :
    bestSpreadValue (find_best_arbitrage F [(c1, r1), (c2, r2)]) =
      |r1 / F c1 - r2 / F c2| * 3600
    ∧ bestSpreadValue (find_best_arbitrage F [(c2, r2), (c1, r1)]) =
      bestSpreadValue (find_best_arbitrage F [(c1, r1), (c2, r2)]) := by
  refine ⟨bestSpreadValue_two F c1 c2 r1 r2, ?_⟩
  rw [bestSpreadValue_two F c2 c1 r2 r1, bestSpreadValue_two F c1 c2 r1 r2,
    abs_sub_comm]

/-- The backtest-side market data provider visible to the controller
(hummingbot's `BacktestingDataProvider`, external to the repository):
`time` is the logical clock `_time` that `MultiConnectorBacktestingEngine.
update_state` sets to the current step's timestamp; `registered` are the
mock connectors installed by `BacktestingEngine._register_mock_connectors`;
`feeds` maps a connector name and trading pair to its loaded funding-rate
series, sorted by timestamp. -/
structure BTProvider where
  time : Int
  registered : List String
  feeds : String → String → List (Int × ℚ)

/-- Modelled from the spec: hummingbot's
`BacktestingDataProvider.get_funding_info`, which the repository's mock
connectors (`MockPerpetualConnectorBase.get_funding_info`) delegate to, is
not under `src/`.  Per the spec (§4.1 `query_as_of` and the controller's
own description "Data provider filters: funding_df['timestamp'] <=
current_time") it returns the funding rate of the loaded sample with the
greatest timestamp at or before the provider's current clock, and absent
when there is none.  Note it receives no timestamp argument: it always
answers as of the provider's own `time`. -/
def BTProvider.get_funding_info (p : BTProvider) (connector trading_pair : String) :
    Option ℚ :=
  (((p.feeds connector trading_pair).filter
      (fun s => decide (s.1 ≤ p.time))).getLast?).map (·.2)

/-- `FundingRateArbController._get_trading_pair`: every venue uses the
`TOKEN-USD` format. -/
def get_trading_pair (token : String) : String := token ++ "-USD"

/-- `FundingRateArbController._get_funding_info_by_token`: for each
configured connector (in iteration order), look the mock connector up in
the provider's registry (silently skipping unregistered ones), query its
funding info, and keep only the non-absent answers, as an insertion-ordered
dict.  Values are wrapped in `some` to mirror the `FundingInfo.rate` field
inspected by validation.  No timestamp is passed: the query is as of the
provider's clock. -/
def get_funding_info_by_token (p : BTProvider) (connectors : List String)
    (token : String) : List (String × Option ℚ) :=
  connectors.filterMap (fun c =>
    if p.registered.contains c then
      (p.get_funding_info c (get_trading_pair token)).map (fun r => (c, some r))
    else none)

/-- `FundingRateArbController._validate_funding_rates`: at least two
entries and every entry's rate non-absent. -/
def validate_funding_rates (rates : List (String × Option ℚ)) : Bool :=
  if rates.length < 2 then false
  else rates.all (fun kv => kv.2.isSome)

/-- The validation gate of the scan (`update_processed_data` lines 200-204):
a token is considered further only when the collected rates validate. -/
def scan_considers (p : BTProvider) (connectors : List String)
    (token : String) : Bool :=
  validate_funding_rates (get_funding_info_by_token p connectors token)

/-- Drop the (always-`some` after validation) option layer of a collected
rates dict, preserving insertion order, for use by the spread search. -/
def dropNoneRates (rates : List (String × Option ℚ)) : List (String × ℚ) :=
  rates.filterMap (fun kv => kv.2.map (fun r => (kv.1, r)))

/-- `FundingRateArbControllerConfig`: the configuration fields consumed by
the embedded logic.  `connectors` and `tokens` are Python sets; their
iteration order is captured as a list.  Integer fields that Python mixes
into decimal/float arithmetic (`max_position_duration_hours`) are carried
as `ℚ`. -/
structure ArbConfig where
  connectors : List String
  tokens : List String
  leverage : ℕ
  min_funding_rate_profitability : ℚ
  position_size_quote : ℚ
  absolute_min_spread_exit : ℚ
  compression_exit_threshold : ℚ
  max_position_duration_hours : ℚ
  max_loss_per_position_pct : ℚ
  execution_delay_seconds : Int

/-- An entry of the `opportunities` list built by `update_processed_data`. -/
structure Opportunity where
  token : String
  connector_1 : String
  connector_2 : String
  side : Bool
  expected_spread : ℚ
  decision_timestamp : Int
  funding_rates : List (String × Option ℚ)
deriving DecidableEq, Repr

/-- An entry of `FundingRateArbController.active_arbitrages`. -/
structure ArbInfo where
  connector_1 : String
  connector_2 : String
  executors_ids : List ℕ
  side : Bool
  entry_spread : ℚ
  entry_timestamp : Int
  decision_timestamp : Int
deriving DecidableEq, Repr

/-- The per-token body of the scan loop in
`FundingRateArbController.update_processed_data`: skip tokens with an
active arbitrage, collect rates (queried at the provider's clock), gate on
validation, search the best pair, and emit an opportunity when the spread
meets `min_funding_rate_profitability`.  The recorded
`decision_timestamp` is `current_time - execution_delay_seconds`, but note
that the collected rates themselves were queried at `current_time`. -/
def scan_token (cfg : ArbConfig) (F : String → ℚ) (p : BTProvider)
    (active : List (String × ArbInfo)) (token : String) : Option Opportunity :=
  match active.lookup token with
  | some _ => none
  | none =>
    let funding_rates := get_funding_info_by_token p cfg.connectors token
    if validate_funding_rates funding_rates then
      match find_best_arbitrage F (dropNoneRates funding_rates) with
      | some (conn1, conn2, side, spread) =>
        if cfg.min_funding_rate_profitability ≤ spread then
          some { token := token, connector_1 := conn1, connector_2 := conn2,
                 side := side, expected_spread := spread,
                 decision_timestamp := p.time - cfg.execution_delay_seconds,
                 funding_rates := funding_rates }
        else none
      | none => none
    else none

/-- `FundingRateArbController.update_processed_data`: the opportunity list
produced by one scan over all configured tokens. -/
def update_processed_data (cfg : ArbConfig) (F : String → ℚ) (p : BTProvider)
    (active : List (String × ArbInfo)) : List Opportunity :=
  cfg.tokens.filterMap (scan_token cfg F p active)

/-- Concrete scan scenario for the execution-delay claim: samples at
`t = 1000` and `t = 1100` only, provider clock at `1150`,
`execution_delay_seconds = 120` (so `decision_time = 1030`). -/
def p1 : BTProvider :=
  { time := 1150,
    registered := ["extended_perpetual", "lighter_perpetual"],
    feeds := fun c _ =>
      if c = "extended_perpetual" then [(1000, 8/1000), (1100, 16/1000)]
      else [(1000, 1/1000), (1100, 4/1000)] }

/-- Configuration for the execution-delay scenario (defaults of
`FundingRateArbControllerConfig` except a lower profitability bar). -/
def cfg1 : ArbConfig :=
  { connectors := ["extended_perpetual", "lighter_perpetual"],
    tokens := ["KAITO"],
    leverage := 5,
    min_funding_rate_profitability := 1/1000,
    position_size_quote := 500,
    absolute_min_spread_exit := 2/1000,
    compression_exit_threshold := 2/5,
    max_position_duration_hours := 24,
    max_loss_per_position_pct := 3/100,
    execution_delay_seconds := 120 }

/-- C1 (code bug): the scan computes `decision_time = current_time -
execution_delay_seconds` but never queries with it; the collected rates
are as of the provider clock `current_time`.  With samples at `t = 1000`
and `t = 1100` only and a scan at `current_time = 1150`, the emitted
opportunity carries the `t = 1100` rates (0.016 and 0.004) and stamps
`decision_timestamp = 1030` — although the as-of-1030 rates are the
`t = 1000` samples (0.008 and 0.001), which is what the claim (and the
controller's own docstring) require the decision to be based on. -/
theorem scan_uses_current_time_not_decision_time :
    update_processed_data cfg1 FUNDING_INTERVALS p1 [] =
      [{ token := "KAITO",
         connector_1 := "extended_perpetual",
         connector_2 := "lighter_perpetual",
         side := true,
         expected_spread := 1/500,
         decision_timestamp := 1030,
         funding_rates := [("extended_perpetual", some (16/1000)),
                           ("lighter_perpetual", some (4/1000))] }]
    ∧ BTProvider.get_funding_info { p1 with time := 1030 }
        "extended_perpetual" "KAITO-USD" = some (8/1000)
    ∧ BTProvider.get_funding_info { p1 with time := 1030 }
        "lighter_perpetual" "KAITO-USD" = some (1/1000) := by
  refine ⟨?_, rfl, rfl⟩
  have hrates : get_funding_info_by_token p1 cfg1.connectors "KAITO" =
      [("extended_perpetual", some (16/1000)),
       ("lighter_perpetual", some (4/1000))] := rfl
  have hfba : find_best_arbitrage FUNDING_INTERVALS
      [("extended_perpetual", 16/1000), ("lighter_perpetual", 4/1000)] =
      some ("extended_perpetual", "lighter_perpetual", true, 1/500) := by
    rw [find_best_arbitrage_two]
    have hF1 : FUNDING_INTERVALS "extended_perpetual" = 28800 := rfl
    have hF2 : FUNDING_INTERVALS "lighter_perpetual" = 3600 := rfl
    rw [hF1, hF2]
    rw [show (16:ℚ)/1000 / 28800 - 4/1000 / 3600 = -(1/1800000) by norm_num]
    rw [abs_neg, abs_of_nonneg (by norm_num : (0:ℚ) ≤ 1/1800000)]
    rw [if_pos (by norm_num : (0:ℚ) < 1/1800000 * 3600)]
    have hside : decide ((16:ℚ)/1000 / 28800 < 4/1000 / 3600) = true := by
      rw [decide_eq_true_eq]; norm_num
    rw [hside]
    norm_num
  have hscan : scan_token cfg1 FUNDING_INTERVALS p1 [] "KAITO" =
      some { token := "KAITO",
             connector_1 := "extended_perpetual",
             connector_2 := "lighter_perpetual",
             side := true,
             expected_spread := 1/500,
             decision_timestamp := 1030,
             funding_rates := [("extended_perpetual", some (16/1000)),
                               ("lighter_perpetual", some (4/1000))] } := by
    simp only [scan_token, List.lookup, hrates]
    have hval : validate_funding_rates
        [("extended_perpetual", some ((16:ℚ)/1000)),
         ("lighter_perpetual", some ((4:ℚ)/1000))] = true := rfl
    have hdrop : dropNoneRates
        [("extended_perpetual", some ((16:ℚ)/1000)),
         ("lighter_perpetual", some ((4:ℚ)/1000))] =
        [("extended_perpetual", 16/1000), ("lighter_perpetual", 4/1000)] := rfl
    rw [hval, hdrop, hfba]
    simp only [if_true]
    rw [if_pos (show cfg1.min_funding_rate_profitability ≤ (1:ℚ)/500 by
      rw [show cfg1.min_funding_rate_profitability = (1:ℚ)/1000 from rfl]
      norm_num)]
    rfl
  show List.filterMap (scan_token cfg1 FUNDING_INTERVALS p1 []) ["KAITO"] = _
  rw [List.filterMap_cons, hscan]
  rfl

/-- Provider for the partial-venue-coverage scenario: the two venues of
the source's `FUNDING_INTERVALS` dict carry a sample at `t = 50`, while
`binance_perpetual` is registered but has no data at all (so its rate is
absent at any query time). -/
def p4 : BTProvider :=
  { time := 1000,
    registered := ["extended_perpetual", "lighter_perpetual",
                   "binance_perpetual"],
    feeds := fun c _ =>
      if c = "extended_perpetual" then [(50, 16/1000)]
      else if c = "lighter_perpetual" then [(50, 4/1000)]
      else [] }

/-- Configuration requiring three venues — the two real ones plus
`binance_perpetual` — for the partial-coverage scenario. -/
def cfg4 : ArbConfig :=
  { connectors := ["extended_perpetual", "lighter_perpetual",
                   "binance_perpetual"],
    tokens := ["KAITO"],
    leverage := 5,
    min_funding_rate_profitability := 1/1000,
    position_size_quote := 500,
    absolute_min_spread_exit := 2/1000,
    compression_exit_threshold := 2/5,
    max_position_duration_hours := 24,
    max_loss_per_position_pct := 3/100,
    execution_delay_seconds := 120 }

/-- Counterexample for C4: with three configured venues of which
`binance_perpetual` has no rate, validation still passes (it only requires
two collected rates) and the scan emits an opportunity for the token —
the claim says the instrument must be skipped when any required venue's
rate is absent.  The pair that is actually scored consists of the two
venues present in the source's hard-coded `FUNDING_INTERVALS` dict (the
absent venue never reaches `_find_best_arbitrage`, so no interval lookup
outside the dict occurs), and the interval map used is that dict. -/
theorem scan_accepts_partial_venue_coverage :
    BTProvider.get_funding_info p4 "binance_perpetual" "KAITO-USD" = none
    ∧ scan_considers p4 cfg4.connectors "KAITO" = true
    ∧ update_processed_data cfg4 FUNDING_INTERVALS p4 [] =
      [{ token := "KAITO",
         connector_1 := "extended_perpetual",
         connector_2 := "lighter_perpetual",
         side := true,
         expected_spread := 1/500,
         decision_timestamp := 880,
         funding_rates := [("extended_perpetual", some (16/1000)),
                           ("lighter_perpetual", some (4/1000))] }] := by
  refine ⟨rfl, rfl, ?_⟩
  have hrates : get_funding_info_by_token p4 cfg4.connectors "KAITO" =
      [("extended_perpetual", some (16/1000)),
       ("lighter_perpetual", some (4/1000))] := rfl
  have hfba : find_best_arbitrage FUNDING_INTERVALS
      [("extended_perpetual", 16/1000), ("lighter_perpetual", 4/1000)] =
      some ("extended_perpetual", "lighter_perpetual", true, 1/500) := by
    rw [find_best_arbitrage_two]
    rw [show FUNDING_INTERVALS "extended_perpetual" = 28800 from rfl,
      show FUNDING_INTERVALS "lighter_perpetual" = 3600 from rfl]
    rw [show (16:ℚ)/1000 / 28800 - 4/1000 / 3600 = -(1/1800000) by norm_num]
    rw [abs_neg, abs_of_nonneg (by norm_num : (0:ℚ) ≤ 1/1800000)]
    rw [if_pos (by norm_num : (0:ℚ) < 1/1800000 * 3600)]
    have hside : decide ((16:ℚ)/1000 / 28800 < 4/1000 / 3600) = true := by
      rw [decide_eq_true_eq]; norm_num
    rw [hside]
    norm_num
  have hscan : scan_token cfg4 FUNDING_INTERVALS p4 [] "KAITO" =
      some { token := "KAITO",
             connector_1 := "extended_perpetual",
             connector_2 := "lighter_perpetual",
             side := true,
             expected_spread := 1/500,
             decision_timestamp := 880,
             funding_rates := [("extended_perpetual", some (16/1000)),
                               ("lighter_perpetual", some (4/1000))] } := by
    simp only [scan_token, List.lookup, hrates]
    have hval : validate_funding_rates
        [("extended_perpetual", some ((16:ℚ)/1000)),
         ("lighter_perpetual", some ((4:ℚ)/1000))] = true := rfl
    have hdrop : dropNoneRates
        [("extended_perpetual", some ((16:ℚ)/1000)),
         ("lighter_perpetual", some ((4:ℚ)/1000))] =
        [("extended_perpetual", 16/1000), ("lighter_perpetual", 4/1000)] := rfl
    rw [hval, hdrop, hfba]
    simp only [if_true]
    rw [if_pos (show cfg4.min_funding_rate_profitability ≤ (1:ℚ)/500 by
      rw [show cfg4.min_funding_rate_profitability = (1:ℚ)/1000 from rfl]
      norm_num)]
    rfl
  show List.filterMap (scan_token cfg4 FUNDING_INTERVALS p4 []) ["KAITO"] = _
  rw [List.filterMap_cons, hscan]
  rfl

/-- The length of a `filterMap` counts the inputs on which the function
succeeds. -/
theorem length_filterMap_countP {α β : Type} (f : α → Option β)
    (l : List α) :
    (l.filterMap f).length = l.countP (fun a => (f a).isSome) := by
  induction l with
  | nil => rfl
  | cons a l ih =>
    cases hfa : f a with
    | none =>
      rw [List.filterMap_cons_none hfa, List.countP_cons, ih, hfa]
      simp
    | some b =>
      rw [List.filterMap_cons_some hfa, List.countP_cons, List.length_cons,
        ih, hfa]
      simp

/-- C4 (amended): the scan's validation gate passes an instrument exactly
when at least two of the configured venues are registered and carry a
non-absent rate at the query time; any venue without a rate is merely
omitted from the collected dict.  (With exactly two configured venues this
coincides with the claim's "every required venue" rule.) -/
theorem scan_considers_iff_two_rates (p : BTProvider)
    (connectors : List String) (token : String) :
    scan_considers p connectors token = true ↔
      2 ≤ connectors.countP
        (fun c => p.registered.contains c &&
          (p.get_funding_info c (get_trading_pair token)).isSome) := by
  have hall : (get_funding_info_by_token p connectors token).all
      (fun kv => kv.2.isSome) = true := by
    rw [List.all_eq_true]
    intro kv hkv
    rcases List.mem_filterMap.mp hkv with ⟨c, hcmem, hg⟩
    by_cases hc : p.registered.contains c = true
    · rw [if_pos hc] at hg
      rcases Option.map_eq_some'.mp hg with ⟨r, hr, heq⟩
      rw [← heq]
      rfl
    · rw [if_neg hc] at hg
      cases hg
  have hlen : (get_funding_info_by_token p connectors token).length =
      connectors.countP (fun c => p.registered.contains c &&
        (p.get_funding_info c (get_trading_pair token)).isSome) := by
    unfold get_funding_info_by_token
    rw [length_filterMap_countP]
    refine List.countP_congr ?_
    intro c hcm
    by_cases hc : p.registered.contains c = true
    · rw [if_pos hc, hc, Bool.true_and]
      cases hinfo : p.get_funding_info c (get_trading_pair token) <;>
        simp [hinfo]
    · rw [if_neg hc, Bool.eq_false_iff.mpr hc, Bool.false_and]
      simp
  unfold scan_considers validate_funding_rates
  by_cases h : (get_funding_info_by_token p connectors token).length < 2
  · rw [if_pos h]
    simp only [Bool.false_eq_true, false_iff]
    rw [hlen] at h
    omega
  · rw [if_neg h, hall]
    simp only [true_iff]
    rw [hlen] at h
    omega

/-- The exit reasons logged by `_should_exit_position`.  In the source they
are formatted strings ("Spread compressed …", "Spread below minimum: …",
"Max duration: …", "Stop loss: …", ""); only their identity matters here,
so they are modelled as tags, with `noExit` for the empty string of the
no-exit result. -/
inductive ExitReason where
  | compressed
  | belowMin
  | maxDuration
  | stopLoss
  | noExit
deriving DecidableEq, Repr

/-- One entry of `self.executors_info` as consulted by
`_get_active_executors` and the stop-loss check: its id, whether the host
reports it active, and its net P&L in quote currency. -/
structure ExecutorInfo where
  id : ℕ
  is_active : Bool
  net_pnl_quote : ℚ
deriving DecidableEq, Repr

/-- `FundingRateArbController._get_active_executors`: the executors whose
id is among the position's ids and which the host reports active. -/
def get_active_executors (executors_info : List ExecutorInfo)
    (executor_ids : List ℕ) : List ExecutorInfo :=
  executors_info.filter (fun e => e.id ∈ executor_ids && e.is_active)

/-- `duration_hours = (current_time - entry_timestamp) / 3600` (Python true
division). -/
def duration_hours (current_time entry_timestamp : Int) : ℚ :=
  ((current_time - entry_timestamp : Int) : ℚ) / 3600

/-- The stop-loss P&L fraction of `_should_exit_position`:
`total_pnl / position_value if position_value > 0 else 0` with
`position_value = position_size_quote * 2`. -/
def pnl_pct (position_size_quote : ℚ) (executors : List ExecutorInfo) : ℚ :=
  let total_pnl := (executors.map (fun e => e.net_pnl_quote)).sum
  let position_value := position_size_quote * 2
  if 0 < position_value then total_pnl / position_value else 0

/-- `FundingRateArbController._should_exit_position`: the four exit rules
in source order — (1) spread compression (guarded by `entry_spread > 0`),
(2) absolute minimum spread, (3) max duration, (4) stop loss over the
active executors (only when at least one executor is reported active) —
returning the first match and its reason. -/
def should_exit_position (cfg : ArbConfig) (arb_info : ArbInfo)
    (current_spread : ℚ) (current_time : Int)
    (executors_info : List ExecutorInfo) : Bool × ExitReason :=
  if 0 < arb_info.entry_spread ∧
      current_spread / arb_info.entry_spread < cfg.compression_exit_threshold then
    (true, ExitReason.compressed)
  else if current_spread < cfg.absolute_min_spread_exit then
    (true, ExitReason.belowMin)
  else if cfg.max_position_duration_hours ≤
      duration_hours current_time arb_info.entry_timestamp then
    (true, ExitReason.maxDuration)
  else
    let executors := get_active_executors executors_info arb_info.executors_ids
    if executors ≠ [] then
      if pnl_pct cfg.position_size_quote executors ≤
          -cfg.max_loss_per_position_pct then
        (true, ExitReason.stopLoss)
      else (false, ExitReason.noExit)
    else (false, ExitReason.noExit)

/-- C6: the four exit rules are evaluated in the fixed source order and the
first matching rule determines the reason: (1) compression wins whenever it
holds (in particular when the absolute-minimum condition holds
simultaneously); (2) absolute minimum fires only when compression fails;
(3) max duration only when (1) and (2) fail; (4) stop loss only when
(1)-(3) fail, at least one executor is active, and the loss bound is hit. -/
theorem exit_rules_fixed_order (cfg : ArbConfig) (arb_info : ArbInfo)
    (current_spread : ℚ) (current_time : Int)
    (executors_info : List ExecutorInfo) :
    ((0 < arb_info.entry_spread ∧
        current_spread / arb_info.entry_spread < cfg.compression_exit_threshold) →
      should_exit_position cfg arb_info current_spread current_time executors_info =
        (true, ExitReason.compressed))
    ∧ (¬ (0 < arb_info.entry_spread ∧
          current_spread / arb_info.entry_spread < cfg.compression_exit_threshold) →
        current_spread < cfg.absolute_min_spread_exit →
      should_exit_position cfg arb_info current_spread current_time executors_info =
        (true, ExitReason.belowMin))
    ∧ (¬ (0 < arb_info.entry_spread ∧
          current_spread / arb_info.entry_spread < cfg.compression_exit_threshold) →
        ¬ current_spread < cfg.absolute_min_spread_exit →
        cfg.max_position_duration_hours ≤
          duration_hours current_time arb_info.entry_timestamp →
      should_exit_position cfg arb_info current_spread current_time executors_info =
        (true, ExitReason.maxDuration))
    ∧ (¬ (0 < arb_info.entry_spread ∧
          current_spread / arb_info.entry_spread < cfg.compression_exit_threshold) →
        ¬ current_spread < cfg.absolute_min_spread_exit →
        ¬ cfg.max_position_duration_hours ≤
          duration_hours current_time arb_info.entry_timestamp →
        get_active_executors executors_info arb_info.executors_ids ≠ [] →
        pnl_pct cfg.position_size_quote
          (get_active_executors executors_info arb_info.executors_ids) ≤
          -cfg.max_loss_per_position_pct →
      should_exit_position cfg arb_info current_spread current_time executors_info =
        (true, ExitReason.stopLoss)) := by
  refine ⟨?_, ?_, ?_, ?_⟩
  · intro h1
    unfold should_exit_position
    rw [if_pos h1]
  · intro h1 h2
    unfold should_exit_position
    rw [if_neg h1, if_pos h2]
  · intro h1 h2 h3
    unfold should_exit_position
    rw [if_neg h1, if_neg h2, if_pos h3]
  · intro h1 h2 h3 h4 h5
    unfold should_exit_position
    rw [if_neg h1, if_neg h2, if_neg h3]
    simp only [if_pos h4, if_pos h5]

/-- Witness for C6 (spec scenario 3 plus the overlap case): entry spread
0.003, current spread 0.0011, compression threshold 0.4 — the compression
ratio 0.367 < 0.4 and the current spread is also below the absolute
minimum 0.002, yet the logged reason is the compression one. -/
theorem exit_rules_fixed_order_witness :
    should_exit_position
      { connectors := ["extended_perpetual", "lighter_perpetual"],
        tokens := ["KAITO"], leverage := 5,
        min_funding_rate_profitability := 3/1000,
        position_size_quote := 500,
        absolute_min_spread_exit := 2/1000,
        compression_exit_threshold := 2/5,
        max_position_duration_hours := 24,
        max_loss_per_position_pct := 3/100,
        execution_delay_seconds := 120 }
      { connector_1 := "extended_perpetual",
        connector_2 := "lighter_perpetual",
        executors_ids := [0, 1], side := true,
        entry_spread := 3/1000, entry_timestamp := 0,
        decision_timestamp := 0 }
      (11/10000) 3600 [] = (true, ExitReason.compressed)
    ∧ (11:ℚ)/10000 < 2/1000 :=
  ⟨(exit_rules_fixed_order _ _ _ _ _).1 (by constructor <;> norm_num),
   by norm_num⟩

/-- Configuration used in the stop-loss scenarios (source defaults). -/
def cfg7 : ArbConfig :=
  { connectors := ["extended_perpetual", "lighter_perpetual"],
    tokens := ["KAITO"], leverage := 5,
    min_funding_rate_profitability := 3/1000,
    position_size_quote := 500,
    absolute_min_spread_exit := 2/1000,
    compression_exit_threshold := 2/5,
    max_position_duration_hours := 24,
    max_loss_per_position_pct := 3/100,
    execution_delay_seconds := 120 }

/-- A position whose two legs have executor ids 1 and 2. -/
def info7 : ArbInfo :=
  { connector_1 := "extended_perpetual",
    connector_2 := "lighter_perpetual",
    executors_ids := [1, 2], side := true,
    entry_spread := 3/1000, entry_timestamp := 0,
    decision_timestamp := 0 }

/-- Counterexample for C7: with leg 2 reported inactive and leg 1 active at
a 100-quote loss, `_should_exit_position` still performs the stop-loss
check (its guard is `if executors:` — any non-empty active subset) and
fires it using only the one active leg's P&L over `2 *
position_size_quote`; the claim says the check must be skipped when either
leg is inactive. -/
theorem stop_loss_fires_with_one_leg_inactive :
    get_active_executors [⟨1, true, -100⟩, ⟨2, false, 0⟩]
      info7.executors_ids = [⟨1, true, -100⟩]
    ∧ should_exit_position cfg7 info7 (3/1000) 3600
        [⟨1, true, -100⟩, ⟨2, false, 0⟩] = (true, ExitReason.stopLoss) := by
  refine ⟨rfl, ?_⟩
  unfold should_exit_position
  rw [if_neg (show ¬ (0 < info7.entry_spread ∧
      (3:ℚ)/1000 / info7.entry_spread < cfg7.compression_exit_threshold) by
    rw [show info7.entry_spread = (3:ℚ)/1000 from rfl,
      show cfg7.compression_exit_threshold = (2:ℚ)/5 from rfl]
    push_neg
    intro _
    norm_num)]
  rw [if_neg (show ¬ ((3:ℚ)/1000 < cfg7.absolute_min_spread_exit) by
    rw [show cfg7.absolute_min_spread_exit = (2:ℚ)/1000 from rfl]
    norm_num)]
  rw [if_neg (show ¬ (cfg7.max_position_duration_hours ≤
      duration_hours 3600 info7.entry_timestamp) by
    rw [show cfg7.max_position_duration_hours = (24:ℚ) from rfl,
      show info7.entry_timestamp = (0:Int) from rfl]
    unfold duration_hours
    norm_num)]
  have hact : get_active_executors [⟨1, true, -100⟩, ⟨2, false, 0⟩]
      info7.executors_ids = [⟨1, true, -100⟩] := rfl
  rw [hact]
  rw [if_pos (show ([(⟨1, true, -100⟩ : ExecutorInfo)] : List ExecutorInfo) ≠ [] by
    simp)]
  rw [if_pos (show pnl_pct cfg7.position_size_quote [⟨1, true, -100⟩] ≤
      -cfg7.max_loss_per_position_pct by
    rw [show cfg7.position_size_quote = (500:ℚ) from rfl,
      show cfg7.max_loss_per_position_pct = (3:ℚ)/100 from rfl]
    unfold pnl_pct
    norm_num)]

/-- C7 (amended): when rules (1)-(3) do not fire, the stop-loss check is
skipped only when *no* leg of the position is reported active; as soon as
at least one leg is active the check runs, using the summed P&L of just
the active legs (an inactive leg contributes nothing) over
`2 * position_size_quote`. -/
theorem stop_loss_skipped_only_without_active_legs (cfg : ArbConfig)
    (arb_info : ArbInfo) (current_spread : ℚ) (current_time : Int)
    (executors_info : List ExecutorInfo)
    (h1 : ¬ (0 < arb_info.entry_spread ∧
        current_spread / arb_info.entry_spread < cfg.compression_exit_threshold))
    (h2 : ¬ current_spread < cfg.absolute_min_spread_exit)
    (h3 : ¬ cfg.max_position_duration_hours ≤
        duration_hours current_time arb_info.entry_timestamp) :
    (get_active_executors executors_info arb_info.executors_ids = [] →
      should_exit_position cfg arb_info current_spread current_time executors_info =
        (false, ExitReason.noExit))
    ∧ (get_active_executors executors_info arb_info.executors_ids ≠ [] →
      should_exit_position cfg arb_info current_spread current_time executors_info =
        (if pnl_pct cfg.position_size_quote
              (get_active_executors executors_info arb_info.executors_ids) ≤
            -cfg.max_loss_per_position_pct
         then (true, ExitReason.stopLoss)
         else (false, ExitReason.noExit))) := by
  constructor
  · intro hempty
    unfold should_exit_position
    rw [if_neg h1, if_neg h2, if_neg h3]
    simp only [hempty, ne_eq, not_true_eq_false, if_false]
  · intro hne
    unfold should_exit_position
    rw [if_neg h1, if_neg h2, if_neg h3]
    simp only [if_pos hne]

/-- Witness for C7's amended theorem: a single active leg at an 80-quote
loss triggers the stop loss on its own. -/
theorem stop_loss_skipped_only_without_active_legs_witness :
    should_exit_position cfg7 info7 (3/1000) 3600
      [⟨1, true, -80⟩, ⟨2, false, 0⟩] = (true, ExitReason.stopLoss) := by
  have h := (stop_loss_skipped_only_without_active_legs cfg7 info7 (3/1000) 3600
    [⟨1, true, -80⟩, ⟨2, false, 0⟩]
    (by
      rw [show info7.entry_spread = (3:ℚ)/1000 from rfl,
        show cfg7.compression_exit_threshold = (2:ℚ)/5 from rfl]
      push_neg
      intro _
      norm_num)
    (by
      rw [show cfg7.absolute_min_spread_exit = (2:ℚ)/1000 from rfl]
      norm_num)
    (by
      rw [show cfg7.max_position_duration_hours = (24:ℚ) from rfl,
        show info7.entry_timestamp = (0:Int) from rfl]
      unfold duration_hours
      norm_num)).2
    (by
      rw [show get_active_executors [⟨1, true, -80⟩, ⟨2, false, 0⟩]
        info7.executors_ids = [⟨1, true, -80⟩] from rfl]
      simp)
  rw [h]
  rw [show get_active_executors [⟨1, true, -80⟩, ⟨2, false, 0⟩]
    info7.executors_ids = [⟨1, true, -80⟩] from rfl]
  rw [if_pos (show pnl_pct cfg7.position_size_quote [⟨1, true, -80⟩] ≤
      -cfg7.max_loss_per_position_pct by
    rw [show cfg7.position_size_quote = (500:ℚ) from rfl,
      show cfg7.max_loss_per_position_pct = (3:ℚ)/100 from rfl]
    unfold pnl_pct
    norm_num)]

/-- The fields of a `PositionExecutorConfig` set by
`_create_paired_executors` (the triple-barrier/market-order parts carry no
data relevant here). -/
structure ExecConfig where
  timestamp : Int
  connector_name : String
  trading_pair : String
  side : Bool
  amount : ℚ
  leverage : ℕ
deriving DecidableEq, Repr

/-- `FundingRateArbController._create_paired_executors`: one mid price is
fetched — for `connector_1`'s trading pair only — and
`amount = position_size_quote / price` is used for *both* executors;
executor 2 takes the opposite side on `connector_2`.  `prices` models the
host's `market_data_provider.get_price_by_type(conn, pair, MidPrice)`
snapshot. -/
def create_paired_executors (cfg : ArbConfig) (prices : String → String → ℚ)
    (opp : Opportunity) (timestamp : Int) : ExecConfig × ExecConfig :=
  let pair1 := get_trading_pair opp.token
  let price := prices opp.connector_1 pair1
  let amount := cfg.position_size_quote / price
  ({ timestamp := timestamp, connector_name := opp.connector_1,
     trading_pair := pair1, side := opp.side, amount := amount,
     leverage := cfg.leverage },
   { timestamp := timestamp, connector_name := opp.connector_2,
     trading_pair := get_trading_pair opp.token,
     side := !opp.side, amount := amount, leverage := cfg.leverage })

/-- Counterexample for C8: with venue-1 price 2 and venue-2 price 4 and
`position_size_quote = 500`, both legs get amount `500 / 2 = 250`; the
second leg's amount is not `500 / 4 = 125` (its own venue's price), and
its notional on venue 2 is `250 * 4 = 1000 ≠ 500`. -/
theorem paired_executor_uses_first_venue_price :
    (create_paired_executors cfg7
        (fun c _ => if c = "lighter_perpetual" then 4 else 2)
        { token := "KAITO", connector_1 := "extended_perpetual",
          connector_2 := "lighter_perpetual", side := true,
          expected_spread := 1/100, decision_timestamp := 0,
          funding_rates := [] } 0).2.amount = 250
    ∧ ¬ ((250 : ℚ) = 500 / 4)
    ∧ ¬ ((250 : ℚ) * 4 = 500) := by
  refine ⟨?_, by norm_num, by norm_num⟩
  show cfg7.position_size_quote /
      (fun c (_ : String) => if c = "lighter_perpetual" then (4:ℚ) else 2)
        "extended_perpetual" "KAITO-USD" = 250
  rw [show cfg7.position_size_quote = (500:ℚ) from rfl]
  show (500 : ℚ) /
    (if "extended_perpetual" = "lighter_perpetual" then (4:ℚ) else 2) = 250
  rw [if_neg (show ¬ ("extended_perpetual" = "lighter_perpetual") by decide)]
  norm_num

/-- C8 (amended): the two legs are created with opposite sides, matching
connectors, and the *same* amount, computed as `position_size_quote`
divided by venue 1's price for the instrument (venue 2's price is never
consulted). -/
theorem paired_executors_structure (cfg : ArbConfig)
    (prices : String → String → ℚ) (opp : Opportunity) (timestamp : Int) :
    (create_paired_executors cfg prices opp timestamp).1.side = opp.side
    ∧ (create_paired_executors cfg prices opp timestamp).2.side = !opp.side
    ∧ (create_paired_executors cfg prices opp timestamp).1.connector_name =
        opp.connector_1
    ∧ (create_paired_executors cfg prices opp timestamp).2.connector_name =
        opp.connector_2
    ∧ (create_paired_executors cfg prices opp timestamp).1.amount =
        cfg.position_size_quote /
          prices opp.connector_1 (get_trading_pair opp.token)
    ∧ (create_paired_executors cfg prices opp timestamp).2.amount =
        (create_paired_executors cfg prices opp timestamp).1.amount :=
  ⟨rfl, rfl, rfl, rfl, rfl, rfl⟩

/-- The controller's mutable state: the `active_arbitrages` dict (token →
arbitrage info, insertion-ordered) and a counter standing for the host's
fresh executor-id supply. -/
structure CtrlState where
  active : List (String × ArbInfo)
  nextId : ℕ
deriving Repr

/-- Python dict assignment `d[k] = v`: replace the entry in place when the
key exists, otherwise append. -/
def setEntry (l : List (String × ArbInfo)) (k : String) (v : ArbInfo) :
    List (String × ArbInfo) :=
  if l.any (fun kv => kv.1 == k) then
    l.map (fun kv => if kv.1 == k then (k, v) else kv)
  else l ++ [(k, v)]

/-- `FundingRateArbController.create_actions_proposal`: for each scanned
opportunity, create the paired executors, record the arbitrage in
`active_arbitrages` (keyed by token, with the two fresh executor ids,
`entry_timestamp = current_time` and the opportunity's entry fields), and
emit both executor configs. -/
def create_actions (cfg : ArbConfig) (prices : String → String → ℚ)
    (current_time : Int) : List Opportunity → CtrlState →
    CtrlState × List ExecConfig
  | [], s => (s, [])
  | opp :: rest, s =>
    let pair := create_paired_executors cfg prices opp current_time
    let info : ArbInfo :=
      { connector_1 := opp.connector_1, connector_2 := opp.connector_2,
        executors_ids := [s.nextId, s.nextId + 1],
        side := opp.side, entry_spread := opp.expected_spread,
        entry_timestamp := current_time,
        decision_timestamp := opp.decision_timestamp }
    let s1 : CtrlState :=
      { active := setEntry s.active opp.token info, nextId := s.nextId + 2 }
    let r := create_actions cfg prices current_time rest s1
    (r.1, pair.1 :: pair.2 :: r.2)

/-- `FundingRateArbController._calculate_current_spread`: both rates
normalized by their venue's funding interval, `abs` difference, hourly
basis.  (The `side` parameter of the source is unused there.) -/
def calculate_current_spread (F : String → ℚ) (rate1 rate2 : ℚ)
    (conn1 conn2 : String) : ℚ :=
  absQ (normalize_rate rate1 (F conn1) - normalize_rate rate2 (F conn2)) * 3600

/-- The per-position body of `stop_actions_proposal`: re-collect the
token's funding rates (at the provider clock), skip the position entirely
when validation fails (`continue`), otherwise compute the current spread
restricted to the position's two venues and evaluate
`_should_exit_position`.  The fall-through `false` of the inner match
models the source raising `KeyError` when a validated dict lacks one of
the position's venues (possible only with three or more configured
venues); no claim settled here depends on that branch. -/
def stop_decision (cfg : ArbConfig) (F : String → ℚ) (p : BTProvider)
    (executors_info : List ExecutorInfo) (token : String) (info : ArbInfo) :
    Bool :=
  let current_funding := get_funding_info_by_token p cfg.connectors token
  if validate_funding_rates current_funding then
    match current_funding.lookup info.connector_1,
        current_funding.lookup info.connector_2 with
    | some (some rate1), some (some rate2) =>
      (should_exit_position cfg info
        (calculate_current_spread F rate1 rate2 info.connector_1 info.connector_2)
        p.time executors_info).1
    | _, _ => false
  else false

/-- `FundingRateArbController.stop_actions_proposal`: iterate over a
snapshot of `active_arbitrages` (distinct keys), delete every entry whose
exit decision is true and emit stop actions for its executor ids.  With
distinct keys, per-key deletion over a snapshot equals this filter. -/
def stop_step (cfg : ArbConfig) (F : String → ℚ) (p : BTProvider)
    (executors_info : List ExecutorInfo) (s : CtrlState) :
    CtrlState × List ℕ :=
  ({ s with active := (s.active.filter
      (fun kv => !(stop_decision cfg F p executors_info kv.1 kv.2))) },
   (s.active.filter
      (fun kv => stop_decision cfg F p executors_info kv.1 kv.2)).flatMap
     (fun kv => kv.2.executors_ids))

/-- One controller step of the backtest loop: `update_processed_data`
computes the opportunity list, `create_actions_proposal` opens the paired
positions, `stop_actions_proposal` evaluates exits — in the order the host
framework invokes them. -/
def controller_step (cfg : ArbConfig) (F : String → ℚ)
    (prices : String → String → ℚ) (executors_info : List ExecutorInfo)
    (p : BTProvider) (s : CtrlState) :
    CtrlState × List ExecConfig × List ℕ :=
  let opps := update_processed_data cfg F p s.active
  let created := create_actions cfg prices p.time opps s
  let stopped := stop_step cfg F p executors_info created.1
  (stopped.1, created.2, stopped.2)

/-- Replacing the value stored under `k` does not change other keys, and
`lookup k` of the replaced map finds the new value (present-key branch of
`setEntry`). -/
theorem lookup_map_replace (k : String) (v : ArbInfo) :
    ∀ l : List (String × ArbInfo),
      (l.map (fun kv => if kv.1 == k then (k, v) else kv)).lookup k =
        if l.any (fun kv => kv.1 == k) then some v else none := by
  intro l
  induction l with
  | nil => rfl
  | cons kv rest ih =>
    obtain ⟨k1, v1⟩ := kv
    simp only [List.map_cons, List.any_cons]
    by_cases hk : (k1 == k) = true
    · rw [if_pos hk]
      have : (k == k) = true := beq_self_eq_true k
      simp [List.lookup_cons, this, hk]
    · rw [if_neg hk]
      have hk2 : (k == k1) = false := by
        rw [beq_eq_false_iff_ne]
        intro he
        exact hk (by rw [he]; exact beq_self_eq_true k1)
      have hk3 : (k1 == k) = false := Bool.eq_false_iff.mpr hk
      simp only [List.lookup_cons, hk2, hk3, Bool.false_or]
      exact ih

/-- Appending an entry behind keys that do not collide makes it findable
(absent-key branch of `setEntry`). -/
theorem lookup_append_single (k : String) (v : ArbInfo) :
    ∀ l : List (String × ArbInfo),
      l.any (fun kv => kv.1 == k) = false →
      (l ++ [(k, v)]).lookup k = some v := by
  intro l
  induction l with
  | nil =>
    intro _
    simp [List.lookup_cons]
  | cons kv rest ih =>
    intro h
    obtain ⟨k1, v1⟩ := kv
    simp only [List.any_cons, Bool.or_eq_false_iff] at h
    have hk2 : (k == k1) = false := by
      rw [beq_eq_false_iff_ne]
      intro he
      rw [beq_eq_false_iff_ne] at *
      exact h.1 he.symm
    rw [List.cons_append]
    simp only [List.lookup_cons, hk2]
    exact ih h.2

/-- `d[k] = v` makes `lookup k` return `v`. -/
theorem setEntry_lookup_self (l : List (String × ArbInfo)) (k : String)
    (v : ArbInfo) : (setEntry l k v).lookup k = some v := by
  unfold setEntry
  by_cases hany : l.any (fun kv => kv.1 == k) = true
  · rw [if_pos hany, lookup_map_replace, if_pos hany]
  · rw [if_neg hany]
    exact lookup_append_single k v l (Bool.eq_false_iff.mpr hany)

/-- `d[k] = v` preserves the presence of every key. -/
theorem setEntry_lookup_isSome (l : List (String × ArbInfo)) (k : String)
    (v : ArbInfo) (t : String) (h : (l.lookup t).isSome = true) :
    ((setEntry l k v).lookup t).isSome = true := by
  by_cases hkt : t = k
  · subst hkt
    rw [setEntry_lookup_self]
    rfl
  · have hbeq : (t == k) = false := by
      rw [beq_eq_false_iff_ne]
      exact hkt
    unfold setEntry
    by_cases hany : l.any (fun kv => kv.1 == k) = true
    · rw [if_pos hany]
      have : ∀ m : List (String × ArbInfo),
          (m.map (fun kv => if kv.1 == k then (k, v) else kv)).lookup t =
            m.lookup t := by
        intro m
        induction m with
        | nil => rfl
        | cons kv rest ih =>
          obtain ⟨k1, v1⟩ := kv
          simp only [List.map_cons]
          by_cases hk1 : (k1 == k) = true
          · rw [if_pos hk1]
            have hk1e : k1 = k := eq_of_beq hk1
            subst hk1e
            simp only [List.lookup_cons, hbeq]
            exact ih
          · rw [if_neg hk1]
            simp only [List.lookup_cons]
            cases htk : (t == k1) with
            | true => rfl
            | false => exact ih
      rw [this]
      exact h
    · rw [if_neg hany]
      have : ∀ m : List (String × ArbInfo), (m.lookup t).isSome = true →
          ((m ++ [(k, v)]).lookup t).isSome = true := by
        intro m
        induction m with
        | nil => intro hm; cases hm
        | cons kv rest ih =>
          intro hm
          obtain ⟨k1, v1⟩ := kv
          rw [List.cons_append]
          simp only [List.lookup_cons] at hm ⊢
          cases htk : (t == k1) with
          | true => simp [htk]
          | false =>
            rw [htk] at hm
            simp only []
            exact ih hm
      exact this l h

/-- A scan only emits an opportunity for a token with no active arbitrage,
and the opportunity is labelled with that token. -/
theorem scan_token_props (cfg : ArbConfig) (F : String → ℚ) (p : BTProvider)
    (active : List (String × ArbInfo)) (token : String) (opp : Opportunity)
    (h : scan_token cfg F p active token = some opp) :
    active.lookup token = none ∧ opp.token = token := by
  simp only [scan_token] at h
  split at h
  · cases h
  next hl =>
    refine ⟨hl, ?_⟩
    split at h
    · split at h
      next c1 c2 side spread heq =>
        split at h
        · injection h with h2
          rw [← h2]
        · cases h
      next => cases h
    · cases h

/-- Opening positions preserves every key already present. -/
theorem create_actions_preserves (cfg : ArbConfig)
    (prices : String → String → ℚ) (current_time : Int) :
    ∀ (opps : List Opportunity) (s : CtrlState) (t : String),
      (s.active.lookup t).isSome = true →
      (((create_actions cfg prices current_time opps s).1).active.lookup t).isSome
        = true := by
  intro opps
  induction opps with
  | nil => intro s t h; exact h
  | cons opp rest ih =>
    intro s t h
    exact ih _ t (setEntry_lookup_isSome _ _ _ _ h)

/-- After `create_actions_proposal`, every scanned token is present in the
active set. -/
theorem create_actions_mem (cfg : ArbConfig)
    (prices : String → String → ℚ) (current_time : Int) :
    ∀ (opps : List Opportunity) (s : CtrlState) (t : String),
      t ∈ opps.map (fun o => o.token) →
      (((create_actions cfg prices current_time opps s).1).active.lookup t).isSome
        = true := by
  intro opps
  induction opps with
  | nil => intro s t h; cases h
  | cons opp rest ih =>
    intro s t h
    simp only [List.map_cons, List.mem_cons] at h
    rcases h with heq | hrest
    · subst heq
      exact create_actions_preserves cfg prices current_time rest _ _
        (by rw [setEntry_lookup_self]; rfl)
    · exact ih _ t hrest

/-- An entry found by `lookup` either survives a `filter` (so the key is
still present) or its own filter test failed. -/
theorem lookup_filter_isSome_or (q : String × ArbInfo → Bool) :
    ∀ (l : List (String × ArbInfo)) (t : String) (info : ArbInfo),
      l.lookup t = some info →
      (((l.filter q).lookup t).isSome = true) ∨ q (t, info) = false := by
  intro l
  induction l with
  | nil => intro t info h; cases h
  | cons kv rest ih =>
    intro t info h
    obtain ⟨k1, v1⟩ := kv
    simp only [List.lookup_cons] at h
    by_cases hk : (t == k1) = true
    · rw [hk] at h
      injection h with h
      have hte : t = k1 := eq_of_beq hk
      subst hte
      subst h
      by_cases hq : q (t, v1) = true
      · left
        rw [List.filter_cons, if_pos hq]
        simp [List.lookup_cons]
      · right
        exact Bool.eq_false_iff.mpr hq
    · rw [Bool.eq_false_iff.mpr hk] at h
      rcases ih t info h with hl | hr
      · left
        rw [List.filter_cons]
        by_cases hq : q (k1, v1) = true
        · rw [if_pos hq]
          simp only [List.lookup_cons, Bool.eq_false_iff.mpr hk]
          exact hl
        · rw [if_neg hq]
          exact hl
      · right
        exact hr

/-- C5: one active position per instrument.  Every opportunity emitted by
a step's scan is for a token with no active arbitrage at scan time (an
`Open` requires `token ∉ active_arbitrages`), and after the step the token
is in the active set — it can only leave it through an `Exit` (a true
`stop_decision`) — so no second `Open` for the token can occur before an
`Exit` removes it. -/
theorem single_position_per_instrument (cfg : ArbConfig) (F : String → ℚ)
    (prices : String → String → ℚ) (executors_info : List ExecutorInfo)
    (p : BTProvider) (s : CtrlState) :
    ∀ opp ∈ update_processed_data cfg F p s.active,
      s.active.lookup opp.token = none
      ∧ ((((controller_step cfg F prices executors_info p s).1).active.lookup
            opp.token).isSome = true
         ∨ ∃ info,
            ((create_actions cfg prices p.time
                (update_processed_data cfg F p s.active) s).1).active.lookup
              opp.token = some info
            ∧ stop_decision cfg F p executors_info opp.token info = true) := by
  intro opp hopp
  rcases List.mem_filterMap.mp hopp with ⟨tok, htok, hscan⟩
  obtain ⟨hnone, htoke⟩ := scan_token_props cfg F p s.active tok opp hscan
  constructor
  · rw [htoke]
    exact hnone
  · have hmem : opp.token ∈
        (update_processed_data cfg F p s.active).map (fun o => o.token) :=
      List.mem_map_of_mem _ hopp
    have h1 := create_actions_mem cfg prices p.time
      (update_processed_data cfg F p s.active) s opp.token hmem
    obtain ⟨info, hinfo⟩ := Option.isSome_iff_exists.mp h1
    rcases lookup_filter_isSome_or
        (fun kv => !(stop_decision cfg F p executors_info kv.1 kv.2))
        ((create_actions cfg prices p.time
          (update_processed_data cfg F p s.active) s).1).active
        opp.token info hinfo with hA | hB
    · left
      exact hA
    · right
      refine ⟨info, hinfo, ?_⟩
      simpa using hB

/-- Witness for C5: the concrete scan of the execution-delay scenario
emits the KAITO opportunity from an empty active set; the theorem yields
that KAITO was not active and is active (or just exited) after the step. -/
theorem single_position_per_instrument_witness :
    (([] : List (String × ArbInfo)).lookup "KAITO" = none)
    ∧ ((((controller_step cfg1 FUNDING_INTERVALS (fun _ _ => 2) []
          p1 { active := [], nextId := 0 }).1).active.lookup
            "KAITO").isSome = true
       ∨ ∃ info,
          ((create_actions cfg1 (fun _ _ => 2) p1.time
              (update_processed_data cfg1 FUNDING_INTERVALS p1 [])
              { active := [], nextId := 0 }).1).active.lookup
            "KAITO" = some info
          ∧ stop_decision cfg1 FUNDING_INTERVALS p1 [] "KAITO" info = true) := by
  have h := single_position_per_instrument cfg1 FUNDING_INTERVALS
    (fun _ _ => 2) [] p1 { active := [], nextId := 0 }
  have hscan : scan_token cfg1 FUNDING_INTERVALS p1 [] "KAITO" =
      some { token := "KAITO",
             connector_1 := "extended_perpetual",
             connector_2 := "lighter_perpetual",
             side := true,
             expected_spread := 1/500,
             decision_timestamp := 1030,
             funding_rates := [("extended_perpetual", some (16/1000)),
                               ("lighter_perpetual", some (4/1000))] } := by
    simp only [scan_token, List.lookup]
    have hval : validate_funding_rates
        (get_funding_info_by_token p1 cfg1.connectors "KAITO") = true := rfl
    have hdrop : dropNoneRates
        (get_funding_info_by_token p1 cfg1.connectors "KAITO") =
        [("extended_perpetual", 16/1000), ("lighter_perpetual", 4/1000)] := rfl
    rw [hval, hdrop]
    have hfba : find_best_arbitrage FUNDING_INTERVALS
        [("extended_perpetual", 16/1000), ("lighter_perpetual", 4/1000)] =
        some ("extended_perpetual", "lighter_perpetual", true, 1/500) := by
      rw [find_best_arbitrage_two]
      rw [show FUNDING_INTERVALS "extended_perpetual" = 28800 from rfl,
        show FUNDING_INTERVALS "lighter_perpetual" = 3600 from rfl]
      rw [show (16:ℚ)/1000 / 28800 - 4/1000 / 3600 = -(1/1800000) by norm_num]
      rw [abs_neg, abs_of_nonneg (by norm_num : (0:ℚ) ≤ 1/1800000)]
      rw [if_pos (by norm_num : (0:ℚ) < 1/1800000 * 3600)]
      have hside : decide ((16:ℚ)/1000 / 28800 < 4/1000 / 3600) = true := by
        rw [decide_eq_true_eq]; norm_num
      rw [hside]
      norm_num
    rw [hfba]
    simp only [if_true]
    rw [if_pos (show cfg1.min_funding_rate_profitability ≤ (1:ℚ)/500 by
      rw [show cfg1.min_funding_rate_profitability = (1:ℚ)/1000 from rfl]
      norm_num)]
    rfl
  have hmem : { token := "KAITO",
                connector_1 := "extended_perpetual",
                connector_2 := "lighter_perpetual",
                side := true,
                expected_spread := (1:ℚ)/500,
                decision_timestamp := 1030,
                funding_rates := [("extended_perpetual", some ((16:ℚ)/1000)),
                                  ("lighter_perpetual", some ((4:ℚ)/1000))] } ∈
      update_processed_data cfg1 FUNDING_INTERVALS p1
        (({ active := [], nextId := 0 } : CtrlState)).active := by
    show _ ∈ List.filterMap (scan_token cfg1 FUNDING_INTERVALS p1 []) ["KAITO"]
    rw [List.filterMap_cons, hscan]
    exact List.mem_cons_self _ _
  exact h _ hmem

/-- Filtering with a predicate that holds on every entry of a key leaves
`lookup` of that key unchanged. -/
theorem lookup_filter_all_true (q : String × ArbInfo → Bool) :
    ∀ (l : List (String × ArbInfo)) (t : String),
      (∀ v, q (t, v) = true) →
      (l.filter q).lookup t = l.lookup t := by
  intro l
  induction l with
  | nil => intro t _; rfl
  | cons kv rest ih =>
    intro t hq
    obtain ⟨k1, v1⟩ := kv
    rw [List.filter_cons]
    by_cases hk : (t == k1) = true
    · have hte : k1 = t := (eq_of_beq hk).symm
      subst hte
      rw [if_pos (hq v1)]
      simp only [List.lookup_cons, hk]
    · by_cases hqh : q (k1, v1) = true
      · rw [if_pos hqh]
        simp only [List.lookup_cons, Bool.eq_false_iff.mpr hk]
        exact ih t hq
      · rw [if_neg hqh]
        rw [ih t hq]
        simp only [List.lookup_cons, Bool.eq_false_iff.mpr hk]

/-- C10: when the re-collected funding rates of an open position's token
fail validation at a step, `stop_actions_proposal` skips the whole exit
evaluation for that position (`continue` before `_should_exit_position`),
including the max-duration and stop-loss checks: the exit decision is
false for any position data (in particular for any entry timestamp, so
even a position past `max_position_duration_hours` stays), the entry stays
in `active_arbitrages` unchanged, and the token is not among the exited
entries. -/
theorem exit_skipped_when_validation_fails (cfg : ArbConfig)
    (F : String → ℚ) (p : BTProvider) (executors_info : List ExecutorInfo)
    (s : CtrlState) (token : String) (info : ArbInfo)
    (hlook : s.active.lookup token = some info)
    (hval : validate_funding_rates
      (get_funding_info_by_token p cfg.connectors token) = false) :
    stop_decision cfg F p executors_info token info = false
    ∧ ((stop_step cfg F p executors_info s).1).active.lookup token = some info
    ∧ token ∉ (s.active.filter
        (fun kv => stop_decision cfg F p executors_info kv.1 kv.2)).map
          Prod.fst := by
  have hdec : ∀ v : ArbInfo,
      stop_decision cfg F p executors_info token v = false := by
    intro v
    simp only [stop_decision]
    rw [hval]
    simp
  refine ⟨hdec info, ?_, ?_⟩
  · show (s.active.filter
      (fun kv => !(stop_decision cfg F p executors_info kv.1 kv.2))).lookup
        token = some info
    rw [lookup_filter_all_true _ _ _ (fun v => by rw [hdec v]; rfl)]
    exact hlook
  · intro hmem
    rcases List.mem_map.mp hmem with ⟨kv, hkvmem, hfst⟩
    obtain ⟨k1, v1⟩ := kv
    have hf := (List.mem_filter.mp hkvmem).2
    have hke : k1 = token := hfst
    subst hke
    rw [hdec v1] at hf
    cases hf

/-- A provider where only one of the two configured venues has any data,
at a clock 100 hours past the position's entry. -/
def p10 : BTProvider :=
  { time := 360000,
    registered := ["extended_perpetual", "lighter_perpetual"],
    feeds := fun c _ =>
      if c = "extended_perpetual" then [(1000, 1/100)] else [] }

/-- The open position of the validation-failure scenario: entered at time
0, so 100 hours old when `p10` is queried — far past the 24-hour limit. -/
def info10 : ArbInfo :=
  { connector_1 := "extended_perpetual",
    connector_2 := "lighter_perpetual",
    executors_ids := [1, 2], side := true,
    entry_spread := 3/1000, entry_timestamp := 0,
    decision_timestamp := 0 }

/-- Witness for C10: with lighter carrying no data, validation fails and
the 100-hour-old position survives the step untouched. -/
theorem exit_skipped_when_validation_fails_witness :
    stop_decision cfg1 FUNDING_INTERVALS p10 [] "KAITO" info10 = false
    ∧ ((stop_step cfg1 FUNDING_INTERVALS p10 []
        { active := [("KAITO", info10)], nextId := 3 }).1).active.lookup
          "KAITO" = some info10
    ∧ "KAITO" ∉ ((({ active := [("KAITO", info10)], nextId := 3 } :
          CtrlState)).active.filter
        (fun kv => stop_decision cfg1 FUNDING_INTERVALS p10 [] kv.1 kv.2)).map
          Prod.fst :=
  exit_skipped_when_validation_fails cfg1 FUNDING_INTERVALS p10 []
    { active := [("KAITO", info10)], nextId := 3 } "KAITO" info10 rfl rfl

/-- The reindex step of `interpolate_missing_data` for one
(exchange, token) pair: `pair_data.set_index('timestamp').
reindex(all_timestamps)` — a grid label present among the pair's rows
takes that row's `funding_rate`, an absent label becomes NaN (`none`).
(`reindex` requires unique labels; the first matching row stands for the
label.) -/
def lookupExact (data : List FundingSample) (exchange token : String)
    (t : Int) : Option ℚ :=
  (data.find? (fun s =>
    s.exchange == exchange && s.base == token && s.timestamp == t)).map
    (·.funding_rate)

/-- `pair_data['funding_rate'].fillna(method='ffill', limit=2)`: walk the
grid carrying the last real observation and the number of consecutive
missing slots since it; a missing slot is filled with the carried value
only while fewer than 2 consecutive slots have been missing. -/
def ffillAux (carry : Option ℚ) (run : ℕ) :
    List (Int × Option ℚ) → List (Int × Option ℚ)
  | [] => []
  | (t, some r) :: rest => (t, some r) :: ffillAux (some r) 0 rest
  | (t, none) :: rest =>
    (t, if run < 2 then carry else none) :: ffillAux carry (run + 1) rest

/-- The per-(exchange, token) core of
`FundingRateBacktestDataProvider.interpolate_missing_data`: reindex the
pair's rows onto the full timestamp grid, forward-fill with `limit=2`
(there is no backward fill in the source), then
`dropna(subset=['funding_rate'])`. -/
def interpolatePair (data : List FundingSample) (exchange token : String)
    (grid : List Int) : List (Int × ℚ) :=
  (ffillAux none 0
    (grid.map (fun t => (t, lookupExact data exchange token t)))).filterMap
    (fun tv => tv.2.map (fun r => (tv.1, r)))

/-- Counterexample for C9: there is no back-fill.  A pair whose only
sample sits at `t = 200` on the grid `[100, 200]` loses the `t = 100` slot
entirely — back-filling (which the claim asserts happens after the
forward fill) would have filled it with the `t = 200` value, well within
any reasonable gap bound. -/
theorem interpolate_does_not_backfill :
    interpolatePair [⟨200, "extended", "KAITO", 5⟩] "extended" "KAITO"
      [100, 200] = [(200, 5)]
    ∧ ∀ r : ℚ, (100, r) ∉ interpolatePair [⟨200, "extended", "KAITO", 5⟩]
      "extended" "KAITO" [100, 200] := by
  refine ⟨rfl, ?_⟩
  intro r hr
  rw [show interpolatePair [⟨200, "extended", "KAITO", 5⟩] "extended" "KAITO"
      [100, 200] = [(200, 5)] from rfl] at hr
  rcases List.mem_singleton.mp hr with h
  cases h

/-- Forward fill does not change the timestamps of the series. -/
theorem ffillAux_map_fst (carry : Option ℚ) (run : ℕ)
    (l : List (Int × Option ℚ)) :
    (ffillAux carry run l).map Prod.fst = l.map Prod.fst := by
  induction l generalizing carry run with
  | nil => rfl
  | cons tv rest ih =>
    obtain ⟨t, v⟩ := tv
    cases v with
    | some r =>
      simp only [ffillAux, List.map_cons]
      rw [ih]
    | none =>
      simp only [ffillAux, List.map_cons]
      rw [ih]

/-- Forward fill keeps every slot that already had a value. -/
theorem ffillAux_preserves_some (t : Int) (r : ℚ) :
    ∀ (carry : Option ℚ) (run : ℕ) (l : List (Int × Option ℚ)),
      (t, some r) ∈ l → (t, some r) ∈ ffillAux carry run l := by
  intro carry run l
  induction l generalizing carry run with
  | nil => intro h; cases h
  | cons tv rest ih =>
    intro h
    obtain ⟨t1, v1⟩ := tv
    rcases List.mem_cons.mp h with heq | hrest
    · injection heq with h1 h2
      subst h1
      rw [← h2]
      simp only [ffillAux]
      exact List.mem_cons_self _ _
    · cases v1 with
      | some r1 =>
        simp only [ffillAux]
        exact List.mem_cons_of_mem _ (ih _ _ hrest)
      | none =>
        simp only [ffillAux]
        exact List.mem_cons_of_mem _ (ih _ _ hrest)

/-- Every value present after the forward fill is either the incoming
carry or originates from a slot of the series at or before the slot that
holds it (values only move forward in time). -/
theorem ffillAux_provenance :
    ∀ (l : List (Int × Option ℚ)) (carry : Option ℚ) (run : ℕ)
      (t : Int) (v : ℚ),
      l.Pairwise (fun a b => a.1 ≤ b.1) →
      (t, some v) ∈ ffillAux carry run l →
      carry = some v ∨ ∃ t2, t2 ≤ t ∧ (t2, some v) ∈ l := by
  intro l
  induction l with
  | nil => intro carry run t v _ h; cases h
  | cons tv rest ih =>
    intro carry run t v hs h
    obtain ⟨t1, v1⟩ := tv
    rcases List.pairwise_cons.mp hs with ⟨ha, hrest⟩
    have hbound : ∀ (c2 : Option ℚ) (r2 : ℕ),
        (t, some v) ∈ ffillAux c2 r2 rest → t1 ≤ t := by
      intro c2 r2 hm
      have : t ∈ (ffillAux c2 r2 rest).map Prod.fst :=
        List.mem_map_of_mem Prod.fst hm
      rw [ffillAux_map_fst] at this
      rcases List.mem_map.mp this with ⟨b, hb, hbt⟩
      exact hbt ▸ ha b hb
    cases v1 with
    | some r1 =>
      simp only [ffillAux] at h
      rcases List.mem_cons.mp h with heq | htail
      · injection heq with h1 h2
        injection h2 with h2
        right
        exact ⟨t1, le_of_eq h1.symm, by rw [h2]; exact List.mem_cons_self _ _⟩
      · rcases ih (some r1) 0 t v hrest htail with hc | ⟨t2, ht2, hmem⟩
        · right
          refine ⟨t1, hbound _ _ htail, ?_⟩
          rw [hc]
          exact List.mem_cons_self _ _
        · right
          exact ⟨t2, ht2, List.mem_cons_of_mem _ hmem⟩
    | none =>
      simp only [ffillAux] at h
      rcases List.mem_cons.mp h with heq | htail
      · injection heq with h1 h2
        by_cases hrun : run < 2
        · rw [if_pos hrun] at h2
          left
          exact h2.symm
        · rw [if_neg hrun] at h2
          cases h2
      · rcases ih carry (run + 1) t v hrest htail with hc | ⟨t2, ht2, hmem⟩
        · left
          exact hc
        · right
          exact ⟨t2, ht2, List.mem_cons_of_mem _ hmem⟩

/-- The carry (last real observation) after processing a prefix. -/
def carryAfter : Option ℚ → List (Int × Option ℚ) → Option ℚ
  | c, [] => c
  | _, (_, some r) :: rest => carryAfter (some r) rest
  | c, (_, none) :: rest => carryAfter c rest

/-- The consecutive-missing count after processing a prefix. -/
def runAfter : ℕ → List (Int × Option ℚ) → ℕ
  | r, [] => r
  | _, (_, some _) :: rest => runAfter 0 rest
  | r, (_, none) :: rest => runAfter (r + 1) rest

/-- Forward fill distributes over append, threading carry and run. -/
theorem ffillAux_append (l1 l2 : List (Int × Option ℚ)) :
    ∀ (carry : Option ℚ) (run : ℕ),
      ffillAux carry run (l1 ++ l2) =
        ffillAux carry run l1 ++
          ffillAux (carryAfter carry l1) (runAfter run l1) l2 := by
  induction l1 with
  | nil => intro carry run; rfl
  | cons tv rest ih =>
    intro carry run
    obtain ⟨t1, v1⟩ := tv
    cases v1 with
    | some r1 =>
      simp only [List.cons_append, ffillAux, carryAfter, runAfter,
        List.append_eq]
      rw [ih]
    | none =>
      simp only [List.cons_append, ffillAux, carryAfter, runAfter,
        List.append_eq]
      rw [ih]

/-- A grid slot survives into the interpolated series with value `r`
exactly when the forward-filled series holds `some r` at that slot. -/
theorem mem_interpolatePair_iff (data : List FundingSample)
    (exchange token : String) (grid : List Int) (t : Int) (r : ℚ) :
    (t, r) ∈ interpolatePair data exchange token grid ↔
      (t, some r) ∈ ffillAux none 0
        (grid.map (fun u => (u, lookupExact data exchange token u))) := by
  unfold interpolatePair
  rw [List.mem_filterMap]
  constructor
  · rintro ⟨⟨t2, v⟩, htv, hg⟩
    cases v with
    | none => simp at hg
    | some xv =>
      simp only [Option.map_some', Option.some.injEq, Prod.mk.injEq] at hg
      obtain ⟨ha, hb⟩ := hg
      subst ha
      subst hb
      exact htv
  · intro hm
    exact ⟨(t, some r), hm, rfl⟩

/-- C9 (amended): on a strictly increasing time grid the interpolation
pass (i) preserves every slot that already had a value, (ii) fabricates
nothing and never back-fills — every value in the output originates from a
grid slot at or before the slot holding it — and (iii) is bounded: a
missing slot preceded by two further missing slots is dropped, not filled
(the source's `limit=2`, i.e. at most 2 consecutive grid slots are
forward-filled).  There is no backward fill. -/
theorem interpolate_ffill_only (data : List FundingSample)
    (exchange token : String) (grid : List Int)
    (hsorted : grid.Pairwise (fun a b => a < b)) :
    (∀ t r, t ∈ grid → lookupExact data exchange token t = some r →
      (t, r) ∈ interpolatePair data exchange token grid)
    ∧ (∀ t r, (t, r) ∈ interpolatePair data exchange token grid →
      ∃ t2, t2 ∈ grid ∧ t2 ≤ t ∧ lookupExact data exchange token t2 = some r)
    ∧ (∀ l1 x y l2 t, grid = l1 ++ [x, y, t] ++ l2 →
      lookupExact data exchange token x = none →
      lookupExact data exchange token y = none →
      lookupExact data exchange token t = none →
      ∀ r, (t, r) ∉ interpolatePair data exchange token grid) := by
  refine ⟨?_, ?_, ?_⟩
  · intro t r htg hlook
    apply (mem_interpolatePair_iff data exchange token grid t r).mpr
    apply ffillAux_preserves_some
    exact List.mem_map.mpr ⟨t, htg, by rw [hlook]⟩
  · intro t r hm
    have hmem := (mem_interpolatePair_iff data exchange token grid t r).mp hm
    have hsortedL : (grid.map
        (fun u => (u, lookupExact data exchange token u))).Pairwise
        (fun a b => a.1 ≤ b.1) := by
      rw [List.pairwise_map]
      exact hsorted.imp (fun h => le_of_lt h)
    rcases ffillAux_provenance _ none 0 t r hsortedL hmem with hc | ⟨t2, ht2, hmem2⟩
    · cases hc
    · rcases List.mem_map.mp hmem2 with ⟨u, hu, hue⟩
      injection hue with h1 h2
      subst h1
      exact ⟨u, hu, ht2, h2⟩
  · intro l1 x y l2 t hgrid hx hy ht r hm
    subst hgrid
    have hmem := (mem_interpolatePair_iff data exchange token _ t r).mp hm
    rcases List.pairwise_append.mp hsorted with ⟨hp1, hp2, hcross1⟩
    rcases List.pairwise_append.mp hp1 with ⟨hp1a, hpxyz, hcross0⟩
    have hal1 : ∀ a ∈ l1, a < t := by
      intro a ha
      exact hcross0 a ha t (by simp)
    have hxt : x < t := by
      rcases List.pairwise_cons.mp hpxyz with ⟨hx1, _⟩
      exact hx1 t (by simp)
    have hyt : y < t := by
      rcases List.pairwise_cons.mp hpxyz with ⟨_, hrest⟩
      rcases List.pairwise_cons.mp hrest with ⟨hy1, _⟩
      exact hy1 t (by simp)
    have hbl2 : ∀ b ∈ l2, t < b := by
      intro b hb
      exact hcross1 t (by simp) b hb
    rw [List.map_append, List.map_append] at hmem
    rw [show List.map (fun u => (u, lookupExact data exchange token u))
        [x, y, t] = [(x, none), (y, none), (t, none)] by
      simp [hx, hy, ht]] at hmem
    rw [ffillAux_append, ffillAux_append] at hmem
    simp only [ffillAux] at hmem
    rcases List.mem_append.mp hmem with hAM | hB2
    · rcases List.mem_append.mp hAM with hA | hM
      · have htl1 : t ∈ l1 := by
          have hf := List.mem_map_of_mem Prod.fst hA
          rw [ffillAux_map_fst, List.map_map] at hf
          simpa using hf
        exact absurd (hal1 t htl1) (lt_irrefl t)
      · rcases List.mem_cons.mp hM with h1 | hrest2
        · injection h1 with h1a h1b
          exact absurd h1a (ne_of_gt hxt)
        · rcases List.mem_cons.mp hrest2 with h2 | hrest3
          · injection h2 with h2a h2b
            exact absurd h2a (ne_of_gt hyt)
          · rcases List.mem_cons.mp hrest3 with h3 | hrest4
            · injection h3 with h3a h3b
              rw [if_neg (by omega)] at h3b
              cases h3b
            · cases hrest4
    · have htl2 : t ∈ l2 := by
        have hf := List.mem_map_of_mem Prod.fst hB2
        rw [ffillAux_map_fst, List.map_map] at hf
        simpa using hf
      exact absurd (hbl2 t htl2) (lt_irrefl t)

/-- Witness for C9's amended theorem: on the grid `[100, 200]`, a pair
sample at 100 with value 7 is preserved in the interpolated output. -/
theorem interpolate_ffill_only_witness :
    (100, (7:ℚ)) ∈ interpolatePair [⟨100, "extended", "KAITO", 7⟩]
      "extended" "KAITO" [100, 200] :=
  (interpolate_ffill_only [⟨100, "extended", "KAITO", 7⟩] "extended" "KAITO"
    [100, 200] (by decide)).1 100 7 (by decide) rfl

end QuantsLab
